import Mathlib

/-
  Verification of the streaming chat relay (backend `chat.controller.js` /
  frontend `ChatContainer.handleSendMessage`) against its specification.

  Text is modelled as `List Char`; bytes as `List Nat`.  All definitions are
  executable translations of the JavaScript source.
-/

namespace BatChat

/-- Text is modelled as a list of characters. -/
abbrev Str := List Char

/-- The fixed SSE tag `data: ` (with trailing space) that every payload line
of the wire format begins with. -/
def dataTag : Str := "data: ".toList

/-- The literal sentinel payload `[DONE]`. -/
def doneLit : Str := "[DONE]".toList

/-- The replacement character `U+FFFD`: emitted by `TextDecoder` on a
malformed or incomplete byte sequence, and used to stand for a lone
surrogate code unit (which has no scalar value) in a decoded JSON
string. -/
def repl : Char := '\uFFFD'

/-- Lowercase hexadecimal digit (only arguments below 16 occur). -/
def hexDigit (n : Nat) : Char :=
  if n < 10 then Char.ofNat (48 + n) else Char.ofNat (87 + n)

/-- JSON string escaping of one character, as produced by `JSON.stringify`:
quote and backslash are escaped, the named escapes cover backspace, form
feed, newline, carriage return and tab, every other control character
below `U+0020` becomes a lowercase `\u00XX` escape, and all other
characters pass through unchanged. -/
def escChar (c : Char) : List Char :=
  if c = '"' then ['\\', '"']
  else if c = '\\' then ['\\', '\\']
  else if c = '\x08' then ['\\', 'b']
  else if c = '\x0c' then ['\\', 'f']
  else if c = '\n' then ['\\', 'n']
  else if c = '\r' then ['\\', 'r']
  else if c = '\t' then ['\\', 't']
  else if c.toNat < 0x20 then
    ['\\', 'u', '0', '0', hexDigit (c.toNat / 16), hexDigit (c.toNat % 16)]
  else [c]

/-- JSON string escaping of a whole string, as in `JSON.stringify`. -/
def escape : Str → Str
  | [] => []
  | c :: cs => escChar c ++ escape cs

/-- The opening characters of the serialized token object:
`\x7b"token":"` (brace, quoted key, colon, opening quote). -/
def tokOpen : Str := "\x7b\"token\":\"".toList

/-- Model of `JSON.stringify(\x7b token \x7d)` from `chat.controller.js`:
the exact wire payload the backend writes for one token. -/
def encodeToken (t : Str) : Str := tokOpen ++ escape t ++ ['"', '\x7d']

/-- The value of one hexadecimal digit, either case, as the `\uXXXX`
escape of JSON accepts. -/
def hexVal (c : Char) : Option Nat :=
  if '0' ≤ c ∧ c ≤ '9' then some (c.toNat - 48)
  else if 'a' ≤ c ∧ c ≤ 'f' then some (c.toNat - 87)
  else if 'A' ≤ c ∧ c ≤ 'F' then some (c.toNat - 55)
  else none

/-- Decodes one single-character JSON escape; any other single-character
escape is a syntax error for `JSON.parse`. -/
def escSimple (d : Char) : Option Char :=
  if d = '"' then some '"'
  else if d = '\\' then some '\\'
  else if d = '/' then some '/'
  else if d = 'b' then some '\x08'
  else if d = 'f' then some '\x0c'
  else if d = 'n' then some '\n'
  else if d = 'r' then some '\r'
  else if d = 't' then some '\t'
  else none

/-- Scans a JSON string body after the opening quote, as `JSON.parse`
does: named escapes, `\uXXXX` escapes (a surrogate pair is combined into
one code point; a lone surrogate, which has no scalar value, is modelled
as `U+FFFD`), raw control characters and unknown or truncated escapes are
syntax errors.  Returns the decoded content and the characters after the
closing quote.  The fuel argument only bounds recursion depth; one unit
per decoded character suffices and `parseStr` supplies it. -/
def parseStrBody : Nat → Str → Option (Str × Str)
  | 0, _ => none
  | _ + 1, [] => none
  | fuel + 1, c :: rest =>
    if c = '"' then some ([], rest)
    else if c = '\\' then
      match rest with
      | [] => none
      | d :: rest2 =>
        if d = 'u' then
          match rest2 with
          | h1 :: h2 :: h3 :: h4 :: rest3 =>
            match hexVal h1, hexVal h2, hexVal h3, hexVal h4 with
            | some a, some b, some x, some y =>
              let n := ((a * 16 + b) * 16 + x) * 16 + y
              if 0xD800 ≤ n ∧ n ≤ 0xDBFF then
                match rest3 with
                | '\\' :: 'u' :: g1 :: g2 :: g3 :: g4 :: rest5 =>
                  match hexVal g1, hexVal g2, hexVal g3, hexVal g4 with
                  | some a2, some b2, some x2, some y2 =>
                    let n2 := ((a2 * 16 + b2) * 16 + x2) * 16 + y2
                    if 0xDC00 ≤ n2 ∧ n2 ≤ 0xDFFF then
                      Option.map (fun p =>
                          (Char.ofNat (0x10000 + (n - 0xD800) * 0x400 + (n2 - 0xDC00)) :: p.1,
                            p.2))
                        (parseStrBody fuel rest5)
                    else Option.map (fun p => (repl :: p.1, p.2)) (parseStrBody fuel rest3)
                  | _, _, _, _ => Option.map (fun p => (repl :: p.1, p.2)) (parseStrBody fuel rest3)
                | _ => Option.map (fun p => (repl :: p.1, p.2)) (parseStrBody fuel rest3)
              else if 0xDC00 ≤ n ∧ n ≤ 0xDFFF then
                Option.map (fun p => (repl :: p.1, p.2)) (parseStrBody fuel rest3)
              else
                Option.map (fun p => (Char.ofNat n :: p.1, p.2)) (parseStrBody fuel rest3)
            | _, _, _, _ => none
          | _ => none
        else
          match escSimple d with
          | some e => Option.map (fun p => (e :: p.1, p.2)) (parseStrBody fuel rest2)
          | none => none
    else if c.toNat < 0x20 then none
    else Option.map (fun p => (c :: p.1, p.2)) (parseStrBody fuel rest)

/-- Scans a JSON string body, supplying its own sufficient fuel. -/
def parseStr (s : Str) : Option (Str × Str) := parseStrBody (s.length + 1) s

/-- JSON values as produced by `JSON.parse`.  A number is carried as its
numeral text: the only place a number is turned back into text is the
string coercion of a `token` field, which no emitted payload exercises;
exact JavaScript float formatting is out of scope (it coincides with the
numeral text for canonical integer numerals). -/
inductive Json where
  | jnull
  | jbool (b : Bool)
  | jnum (text : Str)
  | jstr (s : Str)
  | jarr (elems : List Json)
  | jobj (fields : List (Str × Json))

/-- JSON whitespace accepted between tokens by `JSON.parse`. -/
def jsonWs (c : Char) : Bool := c = ' ' || c = '\t' || c = '\n' || c = '\r'

/-- Skips JSON whitespace. -/
def skipWs (s : Str) : Str := s.dropWhile jsonWs

/-- Scans a run of decimal digits. -/
def scanDigits : Str → (Str × Str)
  | [] => ([], [])
  | c :: r =>
    if c.isDigit then
      let p := scanDigits r
      (c :: p.1, p.2)
    else ([], c :: r)

/-- Scans the optional exponent part of a JSON numeral. -/
def parseExpPart (acc : Str) (s : Str) : Option (Str × Str) :=
  match s with
  | c :: r =>
    if c = 'e' || c = 'E' then
      let q := match r with
        | '+' :: rr => ((['+'] : Str), rr)
        | '-' :: rr => ((['-'] : Str), rr)
        | _ => (([] : Str), r)
      match scanDigits q.2 with
      | ([], _) => none
      | (ds, rest) => some (acc ++ c :: (q.1 ++ ds), rest)
    else some (acc, c :: r)
  | [] => some (acc, [])

/-- Scans the optional fraction part of a JSON numeral, then the optional
exponent. -/
def parseFracPart (acc : Str) (s : Str) : Option (Str × Str) :=
  match s with
  | '.' :: r =>
    match scanDigits r with
    | ([], _) => none
    | (ds, rest) => parseExpPart (acc ++ '.' :: ds) rest
  | _ => parseExpPart acc s

/-- Scans the integer part of a JSON numeral (a single zero, or a nonzero
digit followed by digits; leading zeros are a syntax error). -/
def parseIntPart (sgn : Str) (s : Str) : Option (Str × Str) :=
  match s with
  | [] => none
  | c :: r =>
    if c = '0' then parseFracPart (sgn ++ ['0']) r
    else if c.isDigit then
      match scanDigits (c :: r) with
      | (ds, rest) => parseFracPart (sgn ++ ds) rest
    else none

/-- Parses a JSON numeral, returning its text and the rest. -/
def parseNum (s : Str) : Option (Str × Str) :=
  match s with
  | '-' :: s1 => parseIntPart ['-'] s1
  | _ => parseIntPart [] s

mutual

/-- Parses one JSON value after optional leading whitespace, as
`JSON.parse` does.  The fuel argument only bounds the nesting of values;
two units per nesting level suffice and `jsonParse` supplies them. -/
def parseVal : Nat → Str → Option (Json × Str)
  | 0, _ => none
  | fuel + 1, s =>
    match skipWs s with
    | [] => none
    | c :: rest =>
      if c = '"' then
        Option.map (fun p => (Json.jstr p.1, p.2)) (parseStr rest)
      else if c = '\x7b' then
        match skipWs rest with
        | '\x7d' :: r2 => some (Json.jobj [], r2)
        | _ => Option.map (fun p => (Json.jobj p.1, p.2)) (parseMembers fuel rest)
      else if c = '[' then
        match skipWs rest with
        | ']' :: r2 => some (Json.jarr [], r2)
        | _ => Option.map (fun p => (Json.jarr p.1, p.2)) (parseElems fuel rest)
      else if c = 't' then
        match rest with
        | 'r' :: 'u' :: 'e' :: r => some (Json.jbool true, r)
        | _ => none
      else if c = 'f' then
        match rest with
        | 'a' :: 'l' :: 's' :: 'e' :: r => some (Json.jbool false, r)
        | _ => none
      else if c = 'n' then
        match rest with
        | 'u' :: 'l' :: 'l' :: r => some (Json.jnull, r)
        | _ => none
      else Option.map (fun p => (Json.jnum p.1, p.2)) (parseNum (c :: rest))

/-- Parses the members of a JSON object after the opening brace (at least
one member; the empty object is handled by `parseVal`). -/
def parseMembers : Nat → Str → Option (List (Str × Json) × Str)
  | 0, _ => none
  | fuel + 1, s =>
    match skipWs s with
    | '"' :: r1 =>
      match parseStr r1 with
      | none => none
      | some (key, r2) =>
        match skipWs r2 with
        | ':' :: r3 =>
          match parseVal fuel r3 with
          | none => none
          | some (v, r4) =>
            match skipWs r4 with
            | ',' :: r5 =>
              Option.map (fun p => ((key, v) :: p.1, p.2)) (parseMembers fuel r5)
            | '\x7d' :: r5 => some ([(key, v)], r5)
            | _ => none
        | _ => none
    | _ => none

/-- Parses the elements of a JSON array after the opening bracket (at
least one element; the empty array is handled by `parseVal`). -/
def parseElems : Nat → Str → Option (List Json × Str)
  | 0, _ => none
  | fuel + 1, s =>
    match parseVal fuel s with
    | none => none
    | some (v, r1) =>
      match skipWs r1 with
      | ',' :: r2 => Option.map (fun p => (v :: p.1, p.2)) (parseElems fuel r2)
      | ']' :: r2 => some ([v], r2)
      | _ => none

end

/-- Model of `JSON.parse(data)`: one value, with only whitespace allowed
after it; `none` is a thrown `SyntaxError`.  The supplied fuel is
sufficient for every input of the given length, so `none` means exactly
that the text is not valid JSON. -/
def jsonParse (s : Str) : Option Json :=
  match parseVal (2 * s.length + 4) s with
  | some (v, rest) => if (skipWs rest).isEmpty then some v else none
  | none => none

/-- The property lookup `v.token` on a parsed value, with the
duplicate-key behaviour of `JSON.parse` (the last occurrence of a key
wins); `none` is the JavaScript `undefined`, which every non-object value
also yields. -/
def lookupLast (k : Str) : List (Str × Json) → Option Json
  | [] => none
  | (k2, v) :: rest =>
    match lookupLast k rest with
    | some v2 => some v2
    | none => if k2 = k then some v else none

/-- The `token` property of the destructured value. -/
def tokenOf : Json → Option Json
  | Json.jobj fields => lookupLast "token".toList fields
  | _ => none

mutual

/-- JavaScript string coercion of a value, as `fullResponse += token`
performs (a number gives its numeral text, see `Json`). -/
def jsCoerce : Json → Str
  | Json.jnull => "null".toList
  | Json.jbool true => "true".toList
  | Json.jbool false => "false".toList
  | Json.jnum t => t
  | Json.jstr s => s
  | Json.jarr xs => jsArrJoin xs
  | Json.jobj _ => "[object Object]".toList

/-- Array-to-string coercion: the elements joined with commas, `null` as
the empty string, as `Array.prototype.toString` does. -/
def jsArrJoin : List Json → Str
  | [] => []
  | [Json.jnull] => []
  | [x] => jsCoerce x
  | Json.jnull :: xs => ',' :: jsArrJoin xs
  | x :: xs => jsCoerce x ++ ',' :: jsArrJoin xs

end

/-- The text `fullResponse += token` appends after a successful parse and
destructuring: the string coercion of the `token` property, with the
JavaScript `undefined` rendered as the text `undefined`. -/
def appendedText (v : Json) : Str :=
  match tokenOf v with
  | none => "undefined".toList
  | some tv => jsCoerce tv

/-- Model of the JavaScript `chunk.split('\n')`: splits a string at every
newline, keeping empty pieces (so a trailing newline yields a final empty
piece, exactly as in JS). -/
def splitNl : Str → List Str
  | [] => [[]]
  | c :: rest =>
    if c = '\n' then [] :: splitNl rest
    else
      match splitNl rest with
      | [] => [[c]]
      | l :: ls => (c :: l) :: ls

/-- One `\x7b role, content \x7d` message record, as used both for the
message list of the client and for the upstream request body. -/
structure ChatMsg where
  role : Str
  content : Str
deriving DecidableEq

/-- Observable parse events of the client loop: a token extracted from a
well-formed frame, or a parsed `[DONE]` sentinel.  This trace records, in
order, the effect calls of the source (`setStreamingMessage` for a token,
the `setMessages` commit for the sentinel); it is an observation of the
loop, not a variable of the source. -/
inductive Ev
  | tok (t : Str)
  | done
deriving DecidableEq

/-- The client-side state of `handleSendMessage` in `ChatContainer`:
the committed message list, the transient `streamingMessage`, and the local
accumulator `fullResponse`, plus the observation trace `events`.
Message ids (`crypto.randomUUID()`) are not modelled. -/
structure ClientState where
  messages : List ChatMsg
  streaming : Str
  fullResponse : Str
  events : List Ev
deriving DecidableEq

/-- The client state at the start of one `handleSendMessage` invocation
(empty accumulator, empty streaming buffer, no assistant committed). -/
def initClient : ClientState := ⟨[], [], [], []⟩

/-- The body of the per-line loop `for (const line of chunk.split('\n'))`:
skip lines without the `data: ` tag; on `[DONE]` commit the accumulated
`fullResponse` as an assistant message and clear the streaming buffer;
otherwise run `const \x7b token \x7d = JSON.parse(data)` and append the
string coercion of `token` to `fullResponse`, mirroring it into the
streaming buffer.  The empty `catch` makes the line a no-op in exactly two
cases: `JSON.parse` throws (the payload is not valid JSON), or the parsed
value is `null` and the destructuring throws. -/
def stepLine (st : ClientState) (line : Str) : ClientState :=
  if line.take 6 = dataTag then
    let data := line.drop 6
    if data = doneLit then
      { st with
          messages := st.messages ++ [⟨"assistant".toList, st.fullResponse⟩],
          streaming := [],
          events := st.events ++ [Ev.done] }
    else
      match jsonParse data with
      | none => st
      | some Json.jnull => st
      | some v =>
        { st with
            fullResponse := st.fullResponse ++ appendedText v,
            streaming := st.fullResponse ++ appendedText v,
            events := st.events ++ [Ev.tok (appendedText v)] }
  else st

/-- Processing of one decoded text chunk: split on newlines and run the
line loop over the pieces.  Note the source splits each chunk separately,
with no buffer carried from one chunk to the next. -/
def stepChunk (st : ClientState) (chunk : Str) : ClientState :=
  (splitNl chunk).foldl stepLine st

/-- The client read loop over a finite sequence of decoded text chunks,
starting from the fresh per-invocation state. -/
def runChunks (chunks : List Str) : ClientState :=
  chunks.foldl stepChunk initClient

/-- Is a byte a UTF-8 continuation byte (`0x80`–`0xBF`)? -/
def isCont (b : Nat) : Bool := 0x80 ≤ b && b ≤ 0xBF

/-- Is the first continuation byte valid for the given 3-byte lead
(WHATWG bounds: `E0` needs `A0`–`BF`, `ED` needs `80`–`9F`)? -/
def cont3ok (b b2 : Nat) : Bool :=
  if b = 0xE0 then 0xA0 ≤ b2 && b2 ≤ 0xBF
  else if b = 0xED then 0x80 ≤ b2 && b2 ≤ 0x9F
  else isCont b2

/-- Is the first continuation byte valid for the given 4-byte lead
(WHATWG bounds: `F0` needs `90`–`BF`, `F4` needs `80`–`8F`)? -/
def cont4ok (b b2 : Nat) : Bool :=
  if b = 0xF0 then 0x90 ≤ b2 && b2 ≤ 0xBF
  else if b = 0xF4 then 0x80 ≤ b2 && b2 ≤ 0x8F
  else isCont b2

/-- Model of one complete (non-streaming) decode call of a UTF-8
`TextDecoder`: the WHATWG UTF-8 decoder with replacement.  Each malformed or
truncated sequence yields one `U+FFFD` and decoding resumes at the
offending byte.  This is what each `decoder.decode(value)` call in the
client performs on one chunk, since the source passes no
`\x7b stream: true \x7d` option and the decoder therefore flushes at the
end of every call. -/
def decodeUtf8 : List Nat → Str
  | [] => []
  | b :: bs =>
    if b ≤ 0x7F then Char.ofNat b :: decodeUtf8 bs
    else if 0xC2 ≤ b && b ≤ 0xDF then
      match bs with
      | [] => [repl]
      | b2 :: bs2 =>
        if isCont b2 then
          Char.ofNat ((b - 0xC0) * 0x40 + (b2 - 0x80)) :: decodeUtf8 bs2
        else repl :: decodeUtf8 (b2 :: bs2)
    else if 0xE0 ≤ b && b ≤ 0xEF then
      match bs with
      | [] => [repl]
      | b2 :: bs2 =>
        if cont3ok b b2 then
          match bs2 with
          | [] => [repl]
          | b3 :: bs3 =>
            if isCont b3 then
              Char.ofNat (((b - 0xE0) * 0x40 + (b2 - 0x80)) * 0x40 + (b3 - 0x80))
                :: decodeUtf8 bs3
            else repl :: decodeUtf8 (b3 :: bs3)
        else repl :: decodeUtf8 (b2 :: bs2)
    else if 0xF0 ≤ b && b ≤ 0xF4 then
      match bs with
      | [] => [repl]
      | b2 :: bs2 =>
        if cont4ok b b2 then
          match bs2 with
          | [] => [repl]
          | b3 :: bs3 =>
            if isCont b3 then
              match bs3 with
              | [] => [repl]
              | b4 :: bs4 =>
                if isCont b4 then
                  Char.ofNat ((((b - 0xF0) * 0x40 + (b2 - 0x80)) * 0x40
                      + (b3 - 0x80)) * 0x40 + (b4 - 0x80)) :: decodeUtf8 bs4
                else repl :: decodeUtf8 (b4 :: bs4)
            else repl :: decodeUtf8 (b3 :: bs3)
        else repl :: decodeUtf8 (b2 :: bs2)
    else repl :: decodeUtf8 bs

/-- UTF-8 encoding of one character (the wire encoding of the response
body of the server). -/
def utf8EncodeChar (c : Char) : List Nat :=
  let n := c.toNat
  if n ≤ 0x7F then [n]
  else if n ≤ 0x7FF then [0xC0 + n / 0x40, 0x80 + n % 0x40]
  else if n ≤ 0xFFFF then
    [0xE0 + n / 0x1000, 0x80 + n / 0x40 % 0x40, 0x80 + n % 0x40]
  else
    [0xF0 + n / 0x40000, 0x80 + n / 0x1000 % 0x40,
     0x80 + n / 0x40 % 0x40, 0x80 + n % 0x40]

/-- UTF-8 encoding of a string into wire bytes. -/
def utf8Encode (s : Str) : List Nat := (s.map utf8EncodeChar).flatten

/-- The client read loop over raw byte chunks: each `reader.read()` chunk
is decoded by a fresh non-streaming `decoder.decode(value)` call and then
processed, exactly as the `while (true)` read loop of the source does. -/
def runByteChunks (chunks : List (List Nat)) : ClientState :=
  (chunks.map decodeUtf8).foldl stepChunk initClient

/-- The Alfred persona instructions from `batman-context.js`
(`ALFRED_SYSTEM_PROMPT`; the full prose is abbreviated to its opening words,
as no verified property depends on the text itself, only on its position in
the upstream message list). -/
def ALFRED_SYSTEM_PROMPT : Str :=
  "You are Alfred Pennyworth, the loyal butler and trusted confidant of Bruce Wayne.".toList

/-- The Batman lore reference from `batman-context.js` (`BATMAN_LORE`;
likewise abbreviated to its opening words). -/
def BATMAN_LORE : Str :=
  "# Batman Universe - Core Reference".toList

/-- Model of `buildBatmanSystemPrompt(override = null)` from
`batman-context.js`: return the override if one is given, otherwise the
Alfred instructions joined to the lore block. -/
def buildBatmanSystemPrompt (override : Option Str := none) : Str :=
  match override with
  | some o => o
  | none => ALFRED_SYSTEM_PROMPT ++ "\n\n---\n\n".toList ++ BATMAN_LORE

/-- The whitespace class JavaScript `String.prototype.trim` strips: the
ASCII whitespace characters and line terminators, no-break space, the
Unicode space separators, the line and paragraph separators, and the
zero-width no-break space. -/
def isWs (c : Char) : Bool :=
  let n := c.toNat
  (9 ≤ n && n ≤ 13) || n = 32 || n = 0xA0 || n = 0x1680
    || (0x2000 ≤ n && n ≤ 0x200A) || n = 0x2028 || n = 0x2029
    || n = 0x202F || n = 0x205F || n = 0x3000 || n = 0xFEFF

/-- Model of JavaScript `message.trim()`: strip leading and trailing
whitespace. -/
def trim (s : Str) : Str :=
  ((s.dropWhile isWs).reverse.dropWhile isWs).reverse

/-- The request-body condition `!message?.trim()` of the controller:
true when the `message` field is absent or trims to the empty string. -/
def msgEmpty : Option Str → Bool
  | none => true
  | some m => (trim m).isEmpty

/-- One inbound request to `POST /api/chat/:conversationId`: the JSON body
fields `message` (possibly absent) and `history` (defaulting to `[]`), and
the `conversationId` path parameter from the route. -/
structure Request where
  message : Option Str
  history : List ChatMsg
  conversationId : Str

/-- The behaviour of the upstream completion call for one invocation:
the `openai.chat.completions.create` promise rejects (`connectFail`), or
the stream yields a sequence of delta contents and ends normally (`ok`;
an empty string stands for a chunk with no `delta.content`), or it yields
some deltas and then the async iteration throws (`midFail`). -/
inductive UpOutcome
  | connectFail
  | ok (deltas : List Str)
  | midFail (deltas : List Str)

/-- The externally observable outcome of one `streamChat` invocation:
the explicitly assigned HTTP status (`none` when `res.status` is never
called, leaving the default 200 of the committed stream), the JSON error
body message if one was sent, whether the event-stream headers were set,
the `data:` frames written in order, whether the response was ended, and
the message list sent upstream (`none` when the upstream call was never
made). -/
structure ServerResult where
  status : Option Nat
  jsonBody : Option Str
  sseHeaders : Bool
  events : List Str
  ended : Bool
  upstreamMessages : Option (List ChatMsg)
deriving DecidableEq

/-- The response of the validation branch of the controller:
`res.status(400).json` with the body message `Message is required`, taken
before the stream headers are set and before any upstream call. -/
def reject400 : ServerResult :=
  { status := some 400,
    jsonBody := some "Message is required".toList,
    sseHeaders := false,
    events := [],
    ended := true,
    upstreamMessages := none }

/-- The nonempty deltas actually written: the controller reads
`chunk.choices[0]?.delta?.content || ''` and writes only when the result
is nonempty. -/
def tokensOf (deltas : List Str) : List Str := deltas.filter (· ≠ [])

/-- The full text of one written token event:
`data: ` ++ `JSON.stringify(\x7b token \x7d)` ++ `\n\n`. -/
def frameOf (t : Str) : Str := dataTag ++ encodeToken t ++ ['\n', '\n']

/-- The terminal success event `data: [DONE]\n\n`. -/
def doneFrame : Str := dataTag ++ doneLit ++ ['\n', '\n']

/-- The terminal mid-stream failure event
`data: \x7b"error":"Stream error"\x7d\n\n`. -/
def errFrame : Str :=
  dataTag ++ "\x7b\"error\":\"Stream error\"\x7d\n\n".toList

/-- The upstream message list the controller builds:
a system message from `buildBatmanSystemPrompt`, then
`history.map(m => (\x7b role, content \x7d))`, then a user message holding
`message.trim()`. -/
def mkUpstreamMessages (m : Str) (h : List ChatMsg) : List ChatMsg :=
  ⟨"system".toList, buildBatmanSystemPrompt⟩
    :: h.map (fun x => ⟨x.role, x.content⟩)
    ++ [⟨"user".toList, trim m⟩]

/-- Model of the active `streamChat` controller in `chat.controller.js`,
as a function of the request and of the behaviour of the upstream call.
Branches follow the source: reject with 400 when `!message?.trim()`; set
the event-stream headers; call upstream; on normal completion write one
frame per nonempty delta then `data: [DONE]` and end; on an error caught
before any client byte was written (`res.headersSent` false, which holds
until the first `res.write`) respond `500` with a JSON body; on an error
after bytes were written, write one terminal error event on the open
stream and end, never touching status or headers again. -/
def streamChat (req : Request) (up : UpOutcome) : ServerResult :=
  match req.message with
  | none => reject400
  | some m =>
    if (trim m).isEmpty then reject400
    else
      let msgs := mkUpstreamMessages m req.history
      match up with
      | UpOutcome.connectFail =>
        { status := some 500,
          jsonBody := some "Internal server error".toList,
          sseHeaders := true,
          events := [],
          ended := true,
          upstreamMessages := some msgs }
      | UpOutcome.ok deltas =>
        { status := none,
          jsonBody := none,
          sseHeaders := true,
          events := (tokensOf deltas).map frameOf ++ [doneFrame],
          ended := true,
          upstreamMessages := some msgs }
      | UpOutcome.midFail deltas =>
        if (tokensOf deltas).isEmpty then
          { status := some 500,
            jsonBody := some "Internal server error".toList,
            sseHeaders := true,
            events := [],
            ended := true,
            upstreamMessages := some msgs }
        else
          { status := none,
            jsonBody := none,
            sseHeaders := true,
            events := (tokensOf deltas).map frameOf ++ [errFrame],
            ended := true,
            upstreamMessages := some msgs }

/-- The frames a successful invocation writes, in order. -/
def serverFrames (deltas : List Str) : List Str :=
  (tokensOf deltas).map frameOf ++ [doneFrame]

/-- The full response text of a successful invocation, as one string of
wire text (the concatenation of every write). -/
def serverWire (deltas : List Str) : Str := (serverFrames deltas).flatten

/-- Counts, over a list of chunks, the lines the client parses as the
`[DONE]` sentinel (the `data: ` tag followed by the literal `[DONE]`). -/
def isDoneLine (l : Str) : Bool :=
  decide (l.take 6 = dataTag) && decide (l.drop 6 = doneLit)

/-- Number of parsed `[DONE]` lines over a whole chunk sequence. -/
def doneCount (chunks : List Str) : Nat :=
  (chunks.map (fun c => ((splitNl c).filter isDoneLine).length)).sum

/-- The bounded-context-window reading the specification takes of the
controller:
there is a fixed count `N` such that the upstream message list always
carries only the most recent `N` prior turns between the system prompt and
the new user turn.  Stated as a proposition about the message-list builder
actually in the code. -/
def contextTruncationClaim : Prop :=
  ∃ N : Nat, ∀ (m : Str) (h : List ChatMsg),
    mkUpstreamMessages m h
      = ⟨"system".toList, buildBatmanSystemPrompt⟩
          :: h.drop (h.length - N) ++ [⟨"user".toList, trim m⟩]

/-- The reading the specification takes of the byte-to-text step:
decoding per
chunk agrees with decoding the concatenated bytes, for every chunking.
This is what a decoder that carries partial sequences across calls
satisfies; the proposition is stated about the per-call decoder the
client actually uses. -/
def decoderChunkClaim : Prop :=
  ∀ chunks : List (List Nat),
    (chunks.map decodeUtf8).flatten = decodeUtf8 chunks.flatten

section Lemmas

/-- No escape expansion ever contains a newline, so serialized token
payloads are newline-free and each written frame is a single wire line. -/
theorem hexDigit_ne_nl (n : Nat) (h : n < 16) : hexDigit n ≠ '\n' := by
  revert h
  revert n
  decide

/-- No escape expansion ever contains a newline, so serialized token
payloads are newline-free and each written frame is a single wire line. -/
theorem escChar_no_nl (c : Char) : '\n' ∉ escChar c := by
  unfold escChar
  split_ifs with h1 h2 h3 h4 h5 h6 h7 h8
  · decide
  · decide
  · decide
  · decide
  · decide
  · decide
  · decide
  · intro hmem
    have hd1 : c.toNat / 16 < 16 := by omega
    have hd2 : c.toNat % 16 < 16 := Nat.mod_lt _ (by omega)
    simp only [List.mem_cons, List.not_mem_nil, or_false] at hmem
    rcases hmem with h | h | h | h | h | h
    · exact absurd h (by decide)
    · exact absurd h (by decide)
    · exact absurd h (by decide)
    · exact absurd h (by decide)
    · exact hexDigit_ne_nl _ hd1 h.symm
    · exact hexDigit_ne_nl _ hd2 h.symm
  · simp only [List.mem_singleton]
    exact fun hh => h5 hh.symm

/-- Serialized token text contains no newline. -/
theorem escape_no_nl (t : Str) : '\n' ∉ escape t := by
  induction t with
  | nil => simp [escape]
  | cons c cs ih =>
    simp only [escape, List.mem_append]
    rintro (h | h)
    · exact escChar_no_nl c h
    · exact ih h

/-- A full token payload line `data: \x7b"token":"..."\x7d` contains no
newline. -/
theorem tokenLine_no_nl (t : Str) : '\n' ∉ dataTag ++ encodeToken t := by
  intro hmem
  rw [List.mem_append] at hmem
  rcases hmem with h | h
  · exact absurd h (by decide)
  · rw [encodeToken, List.mem_append] at h
    rcases h with h | h
    · rw [List.mem_append] at h
      rcases h with h | h
      · exact absurd h (by decide)
      · exact escape_no_nl t h
    · exact absurd h (by decide)

/-- Splitting distributes over the first newline: if `l` is newline-free,
`splitNl (l ++ '\n' :: r)` peels `l` off as the first piece. -/
theorem splitNl_append_nl (l r : Str) (h : '\n' ∉ l) :
    splitNl (l ++ '\n' :: r) = l :: splitNl r := by
  induction l with
  | nil => rw [List.nil_append, splitNl.eq_def]; simp
  | cons c cs ih =>
    have hc : c ≠ '\n' := fun he => h (by simp [he])
    have ih' := ih (fun hm => h (List.mem_cons_of_mem _ hm))
    rw [List.cons_append, splitNl.eq_def]
    simp only [if_neg hc, ih']

/-- A newline-free string splits into itself alone. -/
theorem splitNl_no_nl (l : Str) (h : '\n' ∉ l) : splitNl l = [l] := by
  induction l with
  | nil => rw [splitNl.eq_def]
  | cons c cs ih =>
    have hc : c ≠ '\n' := fun he => h (by simp [he])
    have ih' := ih (fun hm => h (List.mem_cons_of_mem _ hm))
    rw [splitNl.eq_def]
    simp only [if_neg hc, ih']

/-- The two hexadecimal digit functions invert each other below 16. -/
theorem hexVal_hexDigit (n : Nat) (h : n < 16) : hexVal (hexDigit n) = some n := by
  revert h
  revert n
  decide

/-- Scanning a string body starting at the closing quote. -/
theorem parseStrBody_quote (f : Nat) (r : Str) :
    parseStrBody (f + 1) ('"' :: r) = some ([], r) := by
  rw [parseStrBody.eq_def]
  simp

/-- Scanning a string body starting at a named escape pair. -/
theorem parseStrBody_esc (f : Nat) (d e : Char) (rest : Str) (hu : d ≠ 'u')
    (hd : escSimple d = some e) :
    parseStrBody (f + 1) ('\\' :: d :: rest)
      = Option.map (fun p => (e :: p.1, p.2)) (parseStrBody f rest) := by
  rw [parseStrBody.eq_def]
  simp only [if_neg hu, hd]
  cases parseStrBody f rest <;> simp

/-- Scanning a string body starting at the `\u00XX` escape of a control
character. -/
theorem parseStrBody_u00 (f : Nat) (c : Char) (rest : Str) (hlt : c.toNat < 0x20) :
    parseStrBody (f + 1) ('\\' :: 'u' :: '0' :: '0'
        :: hexDigit (c.toNat / 16) :: hexDigit (c.toNat % 16) :: rest)
      = Option.map (fun p => (c :: p.1, p.2)) (parseStrBody f rest) := by
  have h0 : hexVal '0' = some 0 := by decide
  have h2 : hexVal (hexDigit (c.toNat / 16)) = some (c.toNat / 16) :=
    hexVal_hexDigit _ (by omega)
  have h3 : hexVal (hexDigit (c.toNat % 16)) = some (c.toNat % 16) :=
    hexVal_hexDigit _ (Nat.mod_lt _ (by omega))
  have hn : ((0 * 16 + 0) * 16 + c.toNat / 16) * 16 + c.toNat % 16 = c.toNat := by
    omega
  have hs1 : ¬ (0xD800 ≤ c.toNat ∧ c.toNat ≤ 0xDBFF) := by omega
  have hs2 : ¬ (0xDC00 ≤ c.toNat ∧ c.toNat ≤ 0xDFFF) := by omega
  rw [parseStrBody.eq_def]
  simp only [h0, h2, h3, hn, if_neg hs1, if_neg hs2, Char.ofNat_toNat]
  simp

/-- Scanning a string body starting at an ordinary character. -/
theorem parseStrBody_plain (f : Nat) (c : Char) (rest : Str) (h1 : c ≠ '"')
    (h2 : c ≠ '\\') (h3 : ¬ c.toNat < 0x20) :
    parseStrBody (f + 1) (c :: rest)
      = Option.map (fun p => (c :: p.1, p.2)) (parseStrBody f rest) := by
  rw [parseStrBody.eq_def]
  simp only [if_neg h1, if_neg h2, if_neg h3]

/-- String scanning inverts escaping: scanning the escaped text followed
by a closing quote recovers the original text and the remainder, given one
unit of fuel per original character. -/
theorem parseStrBody_escape (t : Str) (f : Nat) (r : Str) :
    parseStrBody (t.length + f + 1) (escape t ++ '"' :: r) = some (t, r) := by
  induction t generalizing f with
  | nil =>
    simpa [escape] using parseStrBody_quote f r
  | cons c cs ih =>
    have hfuel : (c :: cs).length + f + 1 = (cs.length + f + 1) + 1 := by
      simp [List.length_cons]
      omega
    rw [hfuel]
    by_cases h1 : c = '"'
    · subst h1
      have he : escChar '"' = ['\\', '"'] := by decide
      simp only [escape, he, List.cons_append, List.nil_append]
      rw [parseStrBody_esc _ '"' '"' _ (by decide) (by decide), ih f]
      rfl
    · by_cases h2 : c = '\\'
      · subst h2
        have he : escChar '\\' = ['\\', '\\'] := by decide
        simp only [escape, he, List.cons_append, List.nil_append]
        rw [parseStrBody_esc _ '\\' '\\' _ (by decide) (by decide), ih f]
        rfl
      · by_cases h3 : c = '\x08'
        · subst h3
          have he : escChar '\x08' = ['\\', 'b'] := by decide
          simp only [escape, he, List.cons_append, List.nil_append]
          rw [parseStrBody_esc _ 'b' '\x08' _ (by decide) (by decide), ih f]
          rfl
        · by_cases h4 : c = '\x0c'
          · subst h4
            have he : escChar '\x0c' = ['\\', 'f'] := by decide
            simp only [escape, he, List.cons_append, List.nil_append]
            rw [parseStrBody_esc _ 'f' '\x0c' _ (by decide) (by decide), ih f]
            rfl
          · by_cases h5 : c = '\n'
            · subst h5
              have he : escChar '\n' = ['\\', 'n'] := by decide
              simp only [escape, he, List.cons_append, List.nil_append]
              rw [parseStrBody_esc _ 'n' '\n' _ (by decide) (by decide), ih f]
              rfl
            · by_cases h6 : c = '\r'
              · subst h6
                have he : escChar '\r' = ['\\', 'r'] := by decide
                simp only [escape, he, List.cons_append, List.nil_append]
                rw [parseStrBody_esc _ 'r' '\r' _ (by decide) (by decide), ih f]
                rfl
              · by_cases h7 : c = '\t'
                · subst h7
                  have he : escChar '\t' = ['\\', 't'] := by decide
                  simp only [escape, he, List.cons_append, List.nil_append]
                  rw [parseStrBody_esc _ 't' '\t' _ (by decide) (by decide), ih f]
                  rfl
                · by_cases h8 : c.toNat < 0x20
                  · have he : escChar c = ['\\', 'u', '0', '0',
                        hexDigit (c.toNat / 16), hexDigit (c.toNat % 16)] := by
                      unfold escChar
                      rw [if_neg h1, if_neg h2, if_neg h3, if_neg h4, if_neg h5,
                        if_neg h6, if_neg h7, if_pos h8]
                    simp only [escape, he, List.cons_append, List.nil_append]
                    rw [parseStrBody_u00 _ c _ h8, ih f]
                    rfl
                  · have he : escChar c = [c] := by
                      unfold escChar
                      rw [if_neg h1, if_neg h2, if_neg h3, if_neg h4, if_neg h5,
                        if_neg h6, if_neg h7, if_neg h8]
                    simp only [escape, he, List.cons_append, List.nil_append]
                    rw [parseStrBody_plain _ c _ h1 h2 h8, ih f]
                    rfl

/-- Escaping never shortens a string. -/
theorem escape_length_ge (t : Str) : t.length ≤ (escape t).length := by
  induction t with
  | nil => simp [escape]
  | cons c cs ih =>
    have h1 : 1 ≤ (escChar c).length := by
      unfold escChar
      split_ifs <;> simp
    simp only [escape, List.length_append, List.length_cons]
    omega

/-- The self-fueled string scan inverts escaping. -/
theorem parseStr_escape (t r : Str) :
    parseStr (escape t ++ '"' :: r) = some (t, r) := by
  have hge := escape_length_ge t
  have hlen : (escape t ++ '"' :: r).length + 1
      = t.length + ((escape t).length - t.length + r.length + 1) + 1 := by
    simp [List.length_append, List.length_cons]
    omega
  rw [parseStr, hlen]
  exact parseStrBody_escape t _ r

/-- Skipping whitespace before a character that is not whitespace is the
identity. -/
theorem skipWs_cons (c : Char) (r : Str) (h : jsonWs c = false) :
    skipWs (c :: r) = c :: r := by
  simp [skipWs, List.dropWhile_cons, h]

/-- Parsing the exact payload the backend emits, with any trailing text:
one object with a single `token` member holding the token string. -/
theorem parseVal_encodeToken (f : Nat) (t r : Str) :
    parseVal (f + 3) (encodeToken t ++ r)
      = some (Json.jobj [("token".toList, Json.jstr t)], r) := by
  have hesc : escape ("token".toList) = "token".toList := by decide
  have hshape : encodeToken t ++ r
      = '\x7b' :: '"' :: ("token".toList
          ++ '"' :: ':' :: '"' :: (escape t ++ '"' :: '\x7d' :: r)) := by
    simp [encodeToken, tokOpen]
  have hkey : parseStr ("token".toList
        ++ '"' :: ':' :: '"' :: (escape t ++ '"' :: '\x7d' :: r))
      = some ("token".toList, ':' :: '"' :: (escape t ++ '"' :: '\x7d' :: r)) := by
    have h := parseStr_escape ("token".toList)
      (':' :: '"' :: (escape t ++ '"' :: '\x7d' :: r))
    rwa [hesc] at h
  have hval : parseVal (f + 1) ('"' :: (escape t ++ '"' :: '\x7d' :: r))
      = some (Json.jstr t, '\x7d' :: r) := by
    rw [parseVal.eq_def]
    simp only [skipWs_cons _ _ (by decide : jsonWs '"' = false)]
    simp [parseStr_escape t ('\x7d' :: r)]
  have hmem : parseMembers (f + 2) ('"' :: ("token".toList
        ++ '"' :: ':' :: '"' :: (escape t ++ '"' :: '\x7d' :: r)))
      = some ([("token".toList, Json.jstr t)], r) := by
    rw [show f + 2 = (f + 1) + 1 from rfl, parseMembers.eq_def]
    simp only [skipWs_cons _ _ (by decide : jsonWs '"' = false), hkey,
      skipWs_cons _ _ (by decide : jsonWs ':' = false),
      skipWs_cons _ _ (by decide : jsonWs '\x7d' = false), hval]
  rw [hshape, show f + 3 = (f + 2) + 1 from rfl, parseVal.eq_def]
  simp only [skipWs_cons _ _ (by decide : jsonWs '\x7b' = false),
    skipWs_cons _ _ (by decide : jsonWs '"' = false), hmem]
  simp

/-- The model of `JSON.parse` inverts the payload print of the backend. -/
theorem jsonParse_encodeToken (t : Str) :
    jsonParse (encodeToken t) = some (Json.jobj [("token".toList, Json.jstr t)]) := by
  rw [jsonParse]
  have hf : 2 * (encodeToken t).length + 4 = (2 * (encodeToken t).length + 1) + 3 := by
    omega
  have h := parseVal_encodeToken (2 * (encodeToken t).length + 1) t []
  rw [List.append_nil] at h
  rw [hf, h]
  simp [skipWs]

/-- The token appended for an emitted payload is the token itself. -/
theorem appendedText_token (t : Str) :
    appendedText (Json.jobj [("token".toList, Json.jstr t)]) = t := by
  simp [appendedText, tokenOf, lookupLast, jsCoerce]

/-- A serialized token payload is never the `[DONE]` sentinel (their first
characters differ). -/
theorem encodeToken_ne_done (t : Str) : encodeToken t ≠ doneLit := by
  have he : encodeToken t
      = '\x7b' :: ("\"token\":\"".toList ++ (escape t ++ ['"', '\x7d'])) := rfl
  intro h
  rw [he] at h
  have hd : doneLit = '[' :: "DONE]".toList := rfl
  rw [hd] at h
  injection h with h1 _
  exact absurd h1 (by decide)

/-- Processing a token line produced by the server: the parse succeeds and
the client appends the token to its accumulator and streaming buffer. -/
theorem stepLine_token (st : ClientState) (t : Str) :
    stepLine st (dataTag ++ encodeToken t)
      = { st with
            fullResponse := st.fullResponse ++ t,
            streaming := st.fullResponse ++ t,
            events := st.events ++ [Ev.tok t] } := by
  have h6 : dataTag.length = 6 := by decide
  have htake : (dataTag ++ encodeToken t).take 6 = dataTag := List.take_left' h6
  have hdrop : (dataTag ++ encodeToken t).drop 6 = encodeToken t := List.drop_left' h6
  simp only [stepLine, htake, hdrop, jsonParse_encodeToken, appendedText_token, if_pos]
  rw [if_neg (encodeToken_ne_done t)]

/-- Processing the sentinel line: the client commits the accumulated text
as one assistant message and clears the streaming buffer. -/
theorem stepLine_done (st : ClientState) :
    stepLine st (dataTag ++ doneLit)
      = { st with
            messages := st.messages ++ [⟨"assistant".toList, st.fullResponse⟩],
            streaming := [],
            events := st.events ++ [Ev.done] } := by
  have h6 : dataTag.length = 6 := by decide
  have htake : (dataTag ++ doneLit).take 6 = dataTag := List.take_left' h6
  have hdrop : (dataTag ++ doneLit).drop 6 = doneLit := List.drop_left' h6
  simp only [stepLine, htake, hdrop, if_pos]

/-- A line without the `data: ` tag is ignored. -/
theorem stepLine_skip (st : ClientState) (l : Str) (h : l.take 6 ≠ dataTag) :
    stepLine st l = st := by
  simp only [stepLine, if_neg h]

/-- The empty line (between frames) is ignored. -/
theorem stepLine_nil (st : ClientState) : stepLine st [] = st :=
  stepLine_skip st [] (by decide)

/-- Fidelity check: a payload that is valid JSON but not of the emitted
shape is NOT skipped — `\x7b\x7d` destructures to an `undefined` token and
the source appends the text `undefined` to the accumulator. -/
theorem stepLine_valid_wrong_shape :
    stepLine initClient (dataTag ++ "\x7b\x7d".toList)
      = { initClient with
            fullResponse := "undefined".toList,
            streaming := "undefined".toList,
            events := [Ev.tok "undefined".toList] } := by
  decide

/-- Fidelity check: a valid-JSON payload carrying extra members still
appends its `token` string. -/
theorem stepLine_extra_members :
    stepLine initClient (dataTag ++ "\x7b\"token\":\"x\",\"a\":1\x7d".toList)
      = { initClient with
            fullResponse := ['x'],
            streaming := ['x'],
            events := [Ev.tok ['x']] } := by
  decide

/-- Fidelity check: the payload `null` parses but the destructuring
throws, so the empty `catch` skips the line. -/
theorem stepLine_null_payload :
    stepLine initClient (dataTag ++ "null".toList) = initClient := by
  decide

/-- A tagged line whose payload is not the sentinel and not valid JSON
leaves the state unchanged: `JSON.parse` throws and the empty `catch`
swallows it. -/
theorem stepLine_bad (st : ClientState) (bad : Str)
    (hb : (jsonParse bad).isNone = true) (hd : bad ≠ doneLit) :
    stepLine st (dataTag ++ bad) = st := by
  have h6 : dataTag.length = 6 := by decide
  have htake : (dataTag ++ bad).take 6 = dataTag := List.take_left' h6
  have hdrop : (dataTag ++ bad).drop 6 = bad := List.drop_left' h6
  have hb2 : jsonParse bad = none := Option.isNone_iff_eq_none.mp hb
  simp only [stepLine, htake, hdrop, hb2, if_pos]
  rw [if_neg hd]

/-- A whole token frame splits into its payload line and two empties. -/
theorem splitNl_frame (t : Str) :
    splitNl (frameOf t) = [dataTag ++ encodeToken t, [], []] := by
  have h : frameOf t = (dataTag ++ encodeToken t) ++ '\n' :: ['\n'] := by
    rw [frameOf, List.append_assoc]
  rw [h, splitNl_append_nl _ _ (tokenLine_no_nl t)]
  rfl

/-- Delivering a whole token frame as one chunk performs exactly the token
update. -/
theorem stepChunk_frame (st : ClientState) (t : Str) :
    stepChunk st (frameOf t)
      = { st with
            fullResponse := st.fullResponse ++ t,
            streaming := st.fullResponse ++ t,
            events := st.events ++ [Ev.tok t] } := by
  rw [stepChunk, splitNl_frame]
  simp only [List.foldl_cons, List.foldl_nil, stepLine_token, stepLine_nil]

/-- The terminal frame splits into the sentinel line and two empties. -/
theorem splitNl_doneFrame :
    splitNl doneFrame = [dataTag ++ doneLit, [], []] := by
  decide

/-- Delivering the terminal frame as one chunk performs exactly the
commit. -/
theorem stepChunk_done (st : ClientState) :
    stepChunk st doneFrame
      = { st with
            messages := st.messages ++ [⟨"assistant".toList, st.fullResponse⟩],
            streaming := [],
            events := st.events ++ [Ev.done] } := by
  rw [stepChunk, splitNl_doneFrame]
  simp only [List.foldl_cons, List.foldl_nil, stepLine_done, stepLine_nil]

/-- Folding frame-aligned chunks accumulates exactly the concatenation of
the framed tokens, commits nothing, and traces one token event each. -/
theorem foldFrames (ts : List Str) (st : ClientState) :
    ((ts.map frameOf).foldl stepChunk st).fullResponse
        = st.fullResponse ++ ts.flatten
      ∧ ((ts.map frameOf).foldl stepChunk st).messages = st.messages
      ∧ ((ts.map frameOf).foldl stepChunk st).events
        = st.events ++ ts.map Ev.tok := by
  induction ts generalizing st with
  | nil => simp
  | cons t ts ih =>
    simp only [List.map_cons, List.foldl_cons, stepChunk_frame, List.flatten_cons]
    obtain ⟨h1, h2, h3⟩ := ih { st with
      fullResponse := st.fullResponse ++ t,
      streaming := st.fullResponse ++ t,
      events := st.events ++ [Ev.tok t] }
    refine ⟨?_, ?_, ?_⟩
    · rw [h1]; simp [List.append_assoc]
    · exact h2
    · rw [h3]; simp [List.append_assoc]

/-- Running the client on the exact frame sequence of a successful server
invocation, one chunk per frame, commits one assistant message holding the
concatenation of all forwarded tokens and traces the tokens then the
terminator. -/
theorem runChunks_server (deltas : List Str) :
    (runChunks (serverFrames deltas)).messages
        = [⟨"assistant".toList, (tokensOf deltas).flatten⟩]
      ∧ (runChunks (serverFrames deltas)).events
        = (tokensOf deltas).map Ev.tok ++ [Ev.done] := by
  rw [runChunks, serverFrames, List.foldl_append]
  obtain ⟨h1, h2, h3⟩ := foldFrames (tokensOf deltas) initClient
  simp only [List.foldl_cons, List.foldl_nil, stepChunk_done, h1, h2, h3]
  constructor
  · simp [initClient]
  · simp [initClient]

/-- A line that does not parse as the sentinel neither commits a message
nor breaks the streaming-buffer identity. -/
theorem stepLine_not_done (st : ClientState) (l : Str) (h : isDoneLine l = false) :
    (stepLine st l).messages = st.messages
      ∧ (st.streaming = st.fullResponse →
          (stepLine st l).streaming = (stepLine st l).fullResponse) := by
  by_cases h1 : l.take 6 = dataTag
  · by_cases h2 : l.drop 6 = doneLit
    · exfalso
      simp [isDoneLine, h1, h2] at h
    · cases hdt : jsonParse (l.drop 6) with
      | none =>
        constructor
        · simp [stepLine, h1, h2, hdt]
        · intro hh
          simpa [stepLine, h1, h2, hdt] using hh
      | some v =>
        cases v with
        | jnull =>
          refine ⟨by simp [stepLine, h1, h2, hdt], fun hh => ?_⟩
          simpa [stepLine, h1, h2, hdt] using hh
        | jbool b =>
          exact ⟨by simp [stepLine, h1, h2, hdt],
            fun hh => by simp [stepLine, h1, h2, hdt]⟩
        | jnum tx =>
          exact ⟨by simp [stepLine, h1, h2, hdt],
            fun hh => by simp [stepLine, h1, h2, hdt]⟩
        | jstr sx =>
          exact ⟨by simp [stepLine, h1, h2, hdt],
            fun hh => by simp [stepLine, h1, h2, hdt]⟩
        | jarr ax =>
          exact ⟨by simp [stepLine, h1, h2, hdt],
            fun hh => by simp [stepLine, h1, h2, hdt]⟩
        | jobj fx =>
          exact ⟨by simp [stepLine, h1, h2, hdt],
            fun hh => by simp [stepLine, h1, h2, hdt]⟩
  · constructor
    · simp [stepLine_skip st l h1]
    · intro hh
      simpa [stepLine_skip st l h1] using hh

/-- Each processed line adds one committed message exactly when it is a
parsed sentinel line. -/
theorem stepLine_len (st : ClientState) (l : Str) :
    (stepLine st l).messages.length
      = st.messages.length + (if isDoneLine l then 1 else 0) := by
  by_cases h1 : l.take 6 = dataTag
  · by_cases h2 : l.drop 6 = doneLit
    · have hd : isDoneLine l = true := by
        rw [isDoneLine, decide_eq_true h1, decide_eq_true h2]; rfl
      simp only [stepLine, if_pos h1, if_pos h2, hd, if_true]
      simp
    · have hd : isDoneLine l = false := by
        rw [isDoneLine, decide_eq_false h2]
        simp
      cases hdt : jsonParse (l.drop 6) with
      | none => simp only [stepLine, if_pos h1, if_neg h2, hdt, hd]; simp
      | some v =>
        cases v <;> (simp only [stepLine, if_pos h1, if_neg h2, hdt, hd]; simp)
  · have hd : isDoneLine l = false := by
      rw [isDoneLine, decide_eq_false h1]
      simp
    rw [stepLine_skip st l h1, hd]
    simp

/-- Over a list of lines, the number of committed messages grows by the
number of parsed sentinel lines. -/
theorem runLines_len (lines : List Str) (st : ClientState) :
    ((lines.foldl stepLine st).messages.length)
      = st.messages.length + (lines.filter isDoneLine).length := by
  induction lines generalizing st with
  | nil => simp
  | cons l ls ih =>
    rw [List.foldl_cons, ih, stepLine_len, List.filter_cons]
    by_cases h : isDoneLine l
    · simp [h]
      omega
    · simp [h]

/-- Over a list of chunks, the number of committed messages grows by the
total number of parsed sentinel lines. -/
theorem runChunksAux_len (chunks : List Str) (st : ClientState) :
    ((chunks.foldl stepChunk st).messages.length)
      = st.messages.length + doneCount chunks := by
  induction chunks generalizing st with
  | nil => simp [doneCount]
  | cons c cs ih =>
    rw [List.foldl_cons, ih, stepChunk, runLines_len]
    simp [doneCount]
    omega

/-- If no line is a parsed sentinel, the streaming buffer keeps tracking
the accumulator across a whole list of lines. -/
theorem runLines_inv (lines : List Str) (st : ClientState)
    (h : ∀ l ∈ lines, isDoneLine l = false)
    (hst : st.streaming = st.fullResponse) :
    ((lines.foldl stepLine st).streaming = (lines.foldl stepLine st).fullResponse) := by
  induction lines generalizing st with
  | nil => exact hst
  | cons l ls ih =>
    rw [List.foldl_cons]
    obtain ⟨_, h2⟩ := stepLine_not_done st l (h l (List.mem_cons_self l ls))
    exact ih _ (fun x hx => h x (List.mem_cons_of_mem _ hx)) (h2 hst)

/-- If no line of any chunk is a parsed sentinel, the streaming buffer
keeps tracking the accumulator across the whole read loop. -/
theorem runChunksAux_inv (chunks : List Str) (st : ClientState)
    (h : ∀ c ∈ chunks, ∀ l ∈ splitNl c, isDoneLine l = false)
    (hst : st.streaming = st.fullResponse) :
    ((chunks.foldl stepChunk st).streaming
      = (chunks.foldl stepChunk st).fullResponse) := by
  induction chunks generalizing st with
  | nil => exact hst
  | cons c cs ih =>
    rw [List.foldl_cons, stepChunk]
    exact ih _ (fun x hx => h x (List.mem_cons_of_mem _ hx))
      (runLines_inv _ _ (h c (List.mem_cons_self c cs)) hst)

/-- Rebuilding a message record field by field is the identity, so the
`history.map` of the controller forwards each history entry verbatim. -/
theorem chatMsg_map_eta (h : List ChatMsg) :
    h.map (fun x => (⟨x.role, x.content⟩ : ChatMsg)) = h := by
  induction h with
  | nil => rfl
  | cons a as ih =>
    cases a
    simp [ih]

/-- For every accepted request the upstream message list is the system
prompt, then the client-supplied history verbatim and in order, then the
trimmed user message. -/
theorem streamChat_upstream (m : Str) (hist : List ChatMsg) (c : Str)
    (up : UpOutcome) (hm : (trim m).isEmpty = false) :
    (streamChat ⟨some m, hist, c⟩ up).upstreamMessages
      = some (⟨"system".toList, buildBatmanSystemPrompt⟩
          :: hist ++ [⟨"user".toList, trim m⟩]) := by
  cases up with
  | connectFail => simp [streamChat, hm, mkUpstreamMessages, chatMsg_map_eta]
  | ok deltas => simp [streamChat, hm, mkUpstreamMessages, chatMsg_map_eta]
  | midFail deltas =>
    by_cases hd : (tokensOf deltas).isEmpty <;>
      simp [streamChat, hm, hd, mkUpstreamMessages, chatMsg_map_eta]

/-- The handler never reads the conversation id: its entire observable
behaviour is unchanged when only the id differs. -/
theorem streamChat_cid_irrelevant (mo : Option Str) (hist : List ChatMsg)
    (c₁ c₂ : Str) (up : UpOutcome) :
    streamChat ⟨mo, hist, c₁⟩ up = streamChat ⟨mo, hist, c₂⟩ up := by
  cases mo <;> rfl

end Lemmas

/-- C1.  Chunk-boundary independence fails on the code: the same wire
bytes (two token frames `Hi`, ` there` and the `[DONE]` frame) delivered
as one chunk yield both tokens then the terminator, but delivered as two
chunks split in the middle of the JSON payload of the first frame, the client
drops the token `Hi` — the tagged fragment fails to parse and is skipped,
and the untagged remainder is skipped, so only ` there` and the terminator
are emitted.  The notes bundled in the repository prescribe the buffer-and-split
strategy the component lacks. -/
theorem C1_split_mid_json_drops_token :
    (utf8Encode "data: \x7b\"to".toList
        ++ utf8Encode "ken\":\"Hi\"\x7d\n\ndata: \x7b\"token\":\" there\"\x7d\n\ndata: [DONE]\n\n".toList
      = utf8Encode (serverWire ["Hi".toList, " there".toList]))
    ∧ (runByteChunks [utf8Encode (serverWire ["Hi".toList, " there".toList])]).events
        = [Ev.tok "Hi".toList, Ev.tok " there".toList, Ev.done]
    ∧ (runByteChunks [utf8Encode "data: \x7b\"to".toList,
        utf8Encode "ken\":\"Hi\"\x7d\n\ndata: \x7b\"token\":\" there\"\x7d\n\ndata: [DONE]\n\n".toList]).events
        = [Ev.tok " there".toList, Ev.done]
    ∧ decide ((runByteChunks [utf8Encode "data: \x7b\"to".toList,
        utf8Encode "ken\":\"Hi\"\x7d\n\ndata: \x7b\"token\":\" there\"\x7d\n\ndata: [DONE]\n\n".toList]).events
        = [Ev.tok "Hi".toList, Ev.tok " there".toList, Ev.done]) = false := by
  refine ⟨by decide, by decide, by decide, by decide⟩

/-- C2 counterexample.  The concatenation law fails as stated: for wire
text equal to a successful invocation forwarding tokens `Hi` and ` there`,
a chunking that splits the second frame mid-payload still observes
`[DONE]` and commits an assistant message, but its content is `Hi`, not
the concatenation `Hi there` of all forwarded fragments. -/
theorem C2_split_chunking_breaks_concat :
    ("data: \x7b\"token\":\"Hi\"\x7d\n\ndata: \x7b\"token\":\" th".toList
        ++ "ere\"\x7d\n\ndata: [DONE]\n\n".toList
      = serverWire ["Hi".toList, " there".toList])
    ∧ (runChunks ["data: \x7b\"token\":\"Hi\"\x7d\n\ndata: \x7b\"token\":\" th".toList,
        "ere\"\x7d\n\ndata: [DONE]\n\n".toList]).messages
        = [⟨"assistant".toList, "Hi".toList⟩]
    ∧ decide ((runChunks ["data: \x7b\"token\":\"Hi\"\x7d\n\ndata: \x7b\"token\":\" th".toList,
        "ere\"\x7d\n\ndata: [DONE]\n\n".toList]).messages
        = [⟨"assistant".toList, "Hi there".toList⟩]) = false := by
  refine ⟨by decide, by decide, by decide⟩

/-- C2 as amended.  When every frame written by the server is delivered to
the client as one whole chunk, the invocation completes with exactly one
committed assistant message whose content is the in-order concatenation of
every forwarded token fragment, and the parse trace is exactly those
tokens followed by the terminator. -/
theorem C2_aligned_concatenation (deltas : List Str) :
    (runChunks (serverFrames deltas)).messages
        = [⟨"assistant".toList, (tokensOf deltas).flatten⟩]
      ∧ (runChunks (serverFrames deltas)).events
        = (tokensOf deltas).map Ev.tok ++ [Ev.done] :=
  runChunks_server deltas

/-- C3.  A request whose message is absent or trims to empty is answered
with status 400 and the `Message is required` JSON body, with no frame
written and no upstream call; a request whose message is nonempty after
trimming never takes the 400 branch. -/
theorem C3_empty_message_rejected (req : Request) (up : UpOutcome) :
    (msgEmpty req.message = true → streamChat req up = reject400)
      ∧ (msgEmpty req.message = false →
          (streamChat req up).status ≠ some 400) := by
  obtain ⟨mo, hist, c⟩ := req
  cases mo with
  | none =>
    refine ⟨fun _ => rfl, fun hf => ?_⟩
    simp [msgEmpty] at hf
  | some m =>
    by_cases he : (trim m).isEmpty
    · refine ⟨fun _ => ?_, fun hf => ?_⟩
      · simp [streamChat, he]
      · simp [msgEmpty, he] at hf
    · refine ⟨fun ht => ?_, fun _ => ?_⟩
      · simp [msgEmpty, he] at ht
      · cases up with
        | connectFail => simp [streamChat, he]
        | ok deltas => simp [streamChat, he]
        | midFail deltas =>
          by_cases hd : (tokensOf deltas).isEmpty <;>
            simp [streamChat, he, hd]

/-- Witness for C3 at a whitespace-only message and at a nonempty one. -/
theorem C3_empty_message_rejected_witness :
    msgEmpty (some "   ".toList) = true
    ∧ streamChat ⟨some "   ".toList, [], "test".toList⟩ (UpOutcome.ok []) = reject400
    ∧ msgEmpty (some "hi".toList) = false
    ∧ decide ((streamChat ⟨some "hi".toList, [], "test".toList⟩
        (UpOutcome.ok [])).status = some 400) = false := by
  refine ⟨by decide, ?_, by decide, ?_⟩
  · exact (C3_empty_message_rejected ⟨some "   ".toList, [], "test".toList⟩
      (UpOutcome.ok [])).1 (by decide)
  · exact decide_eq_false ((C3_empty_message_rejected
      ⟨some "hi".toList, [], "test".toList⟩ (UpOutcome.ok [])).2 (by decide))

/-- C4.  The active handler performs no conversation lookup: a request
addressed to a conversation no store has ever seen passes straight through
— the event-stream headers are set, the tokens and the terminator are
streamed, no status is ever assigned, and in particular 404 is never
produced. -/
theorem C4_unknown_conversation_still_streams :
    (streamChat ⟨some "hi".toList, [], "no-such-conversation".toList⟩
        (UpOutcome.ok ["x".toList])).status = none
    ∧ (streamChat ⟨some "hi".toList, [], "no-such-conversation".toList⟩
        (UpOutcome.ok ["x".toList])).sseHeaders = true
    ∧ (streamChat ⟨some "hi".toList, [], "no-such-conversation".toList⟩
        (UpOutcome.ok ["x".toList])).events = [frameOf "x".toList, doneFrame]
    ∧ decide ((streamChat ⟨some "hi".toList, [], "no-such-conversation".toList⟩
        (UpOutcome.ok ["x".toList])).status = some 404) = false := by
  refine ⟨by decide, by decide, by decide, by decide⟩

/-- C5.  Error propagation is phase-dependent: an upstream failure before
any byte is written yields status 500 with the JSON error body and no
event-stream frames; a failure after at least one token frame was written
never assigns a status or a JSON body and instead appends one terminal
`data: \x7b"error"...\x7d` event after the already-written frames and ends
the stream. -/
theorem C5_error_phase_dependent (m : Str) (hist : List ChatMsg) (c : Str)
    (deltas : List Str) (hm : (trim m).isEmpty = false) :
    ((streamChat ⟨some m, hist, c⟩ UpOutcome.connectFail).status = some 500
      ∧ (streamChat ⟨some m, hist, c⟩ UpOutcome.connectFail).jsonBody
          = some "Internal server error".toList
      ∧ (streamChat ⟨some m, hist, c⟩ UpOutcome.connectFail).events = [])
      ∧ (tokensOf deltas ≠ [] →
          (streamChat ⟨some m, hist, c⟩ (UpOutcome.midFail deltas)).status = none
            ∧ (streamChat ⟨some m, hist, c⟩ (UpOutcome.midFail deltas)).jsonBody = none
            ∧ (streamChat ⟨some m, hist, c⟩ (UpOutcome.midFail deltas)).events
                = (tokensOf deltas).map frameOf ++ [errFrame]
            ∧ (streamChat ⟨some m, hist, c⟩ (UpOutcome.midFail deltas)).ended = true) := by
  constructor
  · refine ⟨?_, ?_, ?_⟩ <;> simp [streamChat, hm]
  · intro hd
    have hd' : (tokensOf deltas).isEmpty = false := by
      simpa [List.isEmpty_iff] using hd
    refine ⟨?_, ?_, ?_, ?_⟩ <;> simp [streamChat, hm, hd']

/-- Witness for C5 at the message `hi` with one mid-stream token. -/
theorem C5_error_phase_witness :
    (trim "hi".toList).isEmpty = false
    ∧ ((streamChat ⟨some "hi".toList, [], "t".toList⟩ UpOutcome.connectFail).status = some 500
      ∧ (streamChat ⟨some "hi".toList, [], "t".toList⟩ UpOutcome.connectFail).jsonBody
          = some "Internal server error".toList
      ∧ (streamChat ⟨some "hi".toList, [], "t".toList⟩ UpOutcome.connectFail).events = [])
    ∧ decide (tokensOf ["x".toList] = []) = false
    ∧ ((streamChat ⟨some "hi".toList, [], "t".toList⟩
          (UpOutcome.midFail ["x".toList])).status = none
      ∧ (streamChat ⟨some "hi".toList, [], "t".toList⟩
          (UpOutcome.midFail ["x".toList])).jsonBody = none
      ∧ (streamChat ⟨some "hi".toList, [], "t".toList⟩
          (UpOutcome.midFail ["x".toList])).events
          = (tokensOf ["x".toList]).map frameOf ++ [errFrame]
      ∧ (streamChat ⟨some "hi".toList, [], "t".toList⟩
          (UpOutcome.midFail ["x".toList])).ended = true) := by
  have h := C5_error_phase_dependent "hi".toList [] "t".toList ["x".toList] (by decide)
  exact ⟨by decide, h.1, by decide, h.2 (by decide)⟩

/-- C6 counterexample.  No fixed truncation count exists: for any
candidate `N`, a history of `N + 1` turns is forwarded in full (the built
list has `N + 3` entries where a truncated one would have `N + 2`), so the
claimed bounded-context-window property is false of the code. -/
theorem C6_no_fixed_truncation : contextTruncationClaim = False := by
  apply eq_false
  rintro ⟨N, hall⟩
  have h := hall [] (List.replicate (N + 1) ⟨[], []⟩)
  have hlen := congrArg List.length h
  simp [mkUpstreamMessages] at hlen

/-- C6 as amended.  For every accepted request the upstream message list
is the system prompt, then all prior turns in order and untruncated, then
the new user turn with trimmed content. -/
theorem C6_full_history_forwarded (m : Str) (hist : List ChatMsg) (c : Str)
    (up : UpOutcome) (hm : (trim m).isEmpty = false) :
    (streamChat ⟨some m, hist, c⟩ up).upstreamMessages
      = some (⟨"system".toList, buildBatmanSystemPrompt⟩
          :: hist ++ [⟨"user".toList, trim m⟩]) :=
  streamChat_upstream m hist c up hm

/-- Witness for C6 as amended, at a two-turn history. -/
theorem C6_full_history_witness :
    (trim "hi".toList).isEmpty = false
    ∧ (streamChat ⟨some "hi".toList,
          [⟨"user".toList, "a".toList⟩, ⟨"assistant".toList, "b".toList⟩],
          "t".toList⟩ (UpOutcome.ok [])).upstreamMessages
        = some (⟨"system".toList, buildBatmanSystemPrompt⟩
            :: [⟨"user".toList, "a".toList⟩, ⟨"assistant".toList, "b".toList⟩]
            ++ [⟨"user".toList, trim "hi".toList⟩]) :=
  ⟨by decide, C6_full_history_forwarded "hi".toList _ _ _ (by decide)⟩

/-- C7.  The byte-to-text step corrupts a split code point: the two-byte
UTF-8 encoding of `é` decoded as one chunk yields `é`, but decoded as two
single-byte chunks — as the per-chunk, non-streaming
`decoder.decode(value)` calls do — yields two replacement characters, so
the decoded text differs from the decoding of the concatenated bytes. -/
theorem C7_split_code_point_corrupted :
    utf8Encode "é".toList = [0xC3, 0xA9]
    ∧ decodeUtf8 [0xC3, 0xA9] = "é".toList
    ∧ decodeUtf8 [0xC3] ++ decodeUtf8 [0xA9] = [repl, repl]
    ∧ decide (decodeUtf8 [0xC3] ++ decodeUtf8 [0xA9]
        = decodeUtf8 ([0xC3] ++ [0xA9])) = false := by
  refine ⟨by decide, by decide, by decide, by decide⟩

/-- C8.  A tagged line whose payload is neither the sentinel nor valid
JSON (the model of `JSON.parse` returns nothing, the throw path of the
source) is skipped without effect: processing any line sequence containing
such a line equals processing the same sequence with the line removed, so
every subsequent well-formed frame is still parsed (and processing is
total — no error is raised and the loop continues). -/
theorem C8_malformed_payload_skipped (st : ClientState) (pre post : List Str)
    (bad : Str) (hb : (jsonParse bad).isNone = true) (hd : bad ≠ doneLit) :
    (pre ++ (dataTag ++ bad) :: post).foldl stepLine st
      = (pre ++ post).foldl stepLine st := by
  rw [List.foldl_append, List.foldl_append, List.foldl_cons, stepLine_bad _ _ hb hd]

/-- Witness for C8: a truncated-JSON payload between a good token line
and the sentinel line is skipped. -/
theorem C8_malformed_payload_witness :
    (jsonParse "\x7b\"to".toList).isNone = true
    ∧ decide (("\x7b\"to".toList : Str) = doneLit) = false
    ∧ ([dataTag ++ encodeToken "Hi".toList]
          ++ (dataTag ++ "\x7b\"to".toList) :: [dataTag ++ doneLit]).foldl stepLine initClient
        = ([dataTag ++ encodeToken "Hi".toList]
          ++ [dataTag ++ doneLit]).foldl stepLine initClient :=
  ⟨by decide, by decide,
    C8_malformed_payload_skipped initClient [dataTag ++ encodeToken "Hi".toList]
      [dataTag ++ doneLit] "\x7b\"to".toList (by decide) (by decide)⟩

/-- C9.  The upstream context is entirely client-supplied: the whole
observable behaviour of the handler is independent of the conversation id in the
URL, and for every accepted request the upstream list is exactly the
system prompt, the history entries of the request body verbatim and in order,
and the trimmed message — no server-side store exists to be consulted. -/
theorem C9_context_client_supplied :
    (∀ (mo : Option Str) (hist : List ChatMsg) (c₁ c₂ : Str) (up : UpOutcome),
        streamChat ⟨mo, hist, c₁⟩ up = streamChat ⟨mo, hist, c₂⟩ up)
    ∧ (∀ (m : Str) (hist : List ChatMsg) (c : Str) (up : UpOutcome),
        (trim m).isEmpty = false →
        (streamChat ⟨some m, hist, c⟩ up).upstreamMessages
          = some (⟨"system".toList, buildBatmanSystemPrompt⟩
              :: hist ++ [⟨"user".toList, trim m⟩])) :=
  ⟨streamChat_cid_irrelevant, streamChat_upstream⟩

/-- Witness for C9 at two distinct conversation ids. -/
theorem C9_context_client_supplied_witness :
    streamChat ⟨some "hi".toList, [], "abc".toList⟩ (UpOutcome.ok [])
      = streamChat ⟨some "hi".toList, [], "xyz".toList⟩ (UpOutcome.ok [])
    ∧ (trim "hi".toList).isEmpty = false
    ∧ (streamChat ⟨some "hi".toList, [], "abc".toList⟩
        (UpOutcome.ok [])).upstreamMessages
        = some (⟨"system".toList, buildBatmanSystemPrompt⟩
            :: [] ++ [⟨"user".toList, trim "hi".toList⟩]) :=
  ⟨C9_context_client_supplied.1 (some "hi".toList) [] "abc".toList "xyz".toList
      (UpOutcome.ok []),
    by decide,
    C9_context_client_supplied.2 "hi".toList [] "abc".toList
      (UpOutcome.ok []) (by decide)⟩

/-- C10.  The client commits exactly one assistant message per parsed
`[DONE]` line; when the stream ends with no parsed `[DONE]` line, nothing
is ever committed and the accumulated text remains only in the transient
streaming buffer (which still equals the accumulator). -/
theorem C10_commit_only_on_done_sentinel (chunks : List Str) :
    (runChunks chunks).messages.length = doneCount chunks
      ∧ (doneCount chunks = 0 →
          (runChunks chunks).messages = []
            ∧ (runChunks chunks).streaming = (runChunks chunks).fullResponse) := by
  have hlen : (runChunks chunks).messages.length = doneCount chunks := by
    have := runChunksAux_len chunks initClient
    simpa [runChunks, initClient] using this
  refine ⟨hlen, fun h0 => ⟨?_, ?_⟩⟩
  · rw [← List.length_eq_zero, hlen, h0]
  · apply runChunksAux_inv
    · intro c hc l hl
      have hsum : ∀ x ∈ chunks.map
          (fun c => ((splitNl c).filter isDoneLine).length), x = 0 := by
        rw [← List.sum_eq_zero_iff]
        exact h0
      have hc0 : ((splitNl c).filter isDoneLine).length = 0 :=
        hsum _ (List.mem_map_of_mem _ hc)
      have hnil : (splitNl c).filter isDoneLine = [] :=
        List.length_eq_zero.mp hc0
      have := List.filter_eq_nil_iff.mp hnil l hl
      exact Bool.not_eq_true _ ▸ (by simpa using this)
    · rfl

/-- Witness for C10: one token frame and no sentinel commits nothing and
leaves the token in the streaming buffer. -/
theorem C10_commit_witness :
    doneCount [frameOf "Hi".toList] = 0
    ∧ (runChunks [frameOf "Hi".toList]).messages = []
    ∧ (runChunks [frameOf "Hi".toList]).streaming
        = (runChunks [frameOf "Hi".toList]).fullResponse := by
  have h := C10_commit_only_on_done_sentinel [frameOf "Hi".toList]
  exact ⟨by decide, (h.2 (by decide)).1, (h.2 (by decide)).2⟩

end BatChat
